import Mathlib

/-!
Verification of the credential-authentication core of the fullstack-projects-vault
repository.

The repository contains two executable backend variants of the same design:

* `ai_fullstack_boilerplate (3).jsx` (namespace `Boiler3` below): Flask backend with
  bcrypt-hashed passwords, JWT login tokens carrying a `username` and an `exp` claim
  set 30 minutes (1800 seconds) ahead, and a `token_required` guard that answers
  403 for a missing header and 403 for every other token failure (one bare
  `except:` around extraction, decoding and claim access).
* `part_001` (`backend/auth.py` and `backend/app.py`, namespace `Part001` below):
  Flask backend storing passwords in plaintext, issuing JWTs whose claims are only
  the literal dict with key `user`, and a `token_required` guard that evaluates
  `request.headers['Authorization'].split()[1]` outside any exception handler.

`part_000` contributes the React client session manager (`handlePredict`,
`logout`), modelled at the bottom.

Modelling decisions (everything else is a direct translation of the source):
* Python strings are `List Char`; server time is a `Nat` of seconds.
* PyJWT's base64url/JSON serialization is abstracted as an injective, executable
  encoding with a verified decoder: every character is expanded to six hex digits
  (`encodeChar`), claims are an association list whose entries are prefixed by a
  separator character, and the three token segments are joined with a dot exactly
  as in the wire format `header.claims.signature`.
* HMAC-SHA256 is abstracted as the deterministic tag `mkSig secret msg`;
  verification recomputes the tag over the presented `header.claims` segments and
  compares, exactly as JWT verification does.  No claim here concerns forging, so
  only determinism and dot-freeness of the tag matter.
* PyJWT's `decode` is modelled by `jwtDecode`: split into three dot-separated
  segments (else a decode error), check the signature, parse the claims, and if an
  `exp` claim is present reject when `exp <= now` (PyJWT raises
  `ExpiredSignatureError` when `exp <= now`, RFC 7519: the current time must be
  strictly before `exp`).  A non-numeric `exp` is modelled as a decode error.
* The SQLite `users` table with its UNIQUE username column is an association list;
  the UNIQUE violation (`IntegrityError`) is the lookup-hit branch.  Availability
  of the store is an explicit boolean: `avail = false` means every SQL statement
  raises `OperationalError`, and each variant's handler reacts exactly as its
  `try/except` structure dictates.
-/

set_option maxRecDepth 20000

/-! ## Splitting a character list at a separator (Python `str.split`) -/

def splitOnChar (sep : Char) : List Char → List (List Char)
  | [] => [[]]
  | c :: rest =>
    if c = sep then [] :: splitOnChar sep rest
    else
      match splitOnChar sep rest with
      | [] => [[c]]
      | p :: ps => (c :: p) :: ps

theorem splitOnChar_ne_nil (sep : Char) (l : List Char) : splitOnChar sep l ≠ [] := by
  induction l with
  | nil => simp [splitOnChar]
  | cons c rest ih =>
    simp only [splitOnChar]
    split
    · simp
    · split
      · simp
      · simp

theorem splitOnChar_sepFree (sep : Char) (l : List Char) (h : sep ∉ l) :
    splitOnChar sep l = [l] := by
  induction l with
  | nil => rfl
  | cons c rest ih =>
    have hc : c ≠ sep := fun hceq => h (hceq ▸ List.mem_cons_self c rest)
    have hrest : sep ∉ rest := fun hm => h (List.mem_cons_of_mem c hm)
    simp only [splitOnChar, if_neg hc, ih hrest]

theorem splitOnChar_append (sep : Char) (a rest : List Char) (h : sep ∉ a) :
    splitOnChar sep (a ++ sep :: rest) = a :: splitOnChar sep rest := by
  induction a with
  | nil => simp [splitOnChar]
  | cons c a ih =>
    have hc : c ≠ sep := fun hceq => h (hceq ▸ List.mem_cons_self c a)
    have ha : sep ∉ a := fun hm => h (List.mem_cons_of_mem c hm)
    simp only [List.cons_append, splitOnChar, if_neg hc, List.append_eq]
    rw [ih ha]

/-! ## Hex expansion of characters and numbers (model of base64url) -/

def hexDigitCharAux (m : Nat) : Char :=
  if m = 0 then '0' else if m = 1 then '1' else if m = 2 then '2' else if m = 3 then '3'
  else if m = 4 then '4' else if m = 5 then '5' else if m = 6 then '6' else if m = 7 then '7'
  else if m = 8 then '8' else if m = 9 then '9' else if m = 10 then 'a' else if m = 11 then 'b'
  else if m = 12 then 'c' else if m = 13 then 'd' else if m = 14 then 'e' else 'f'

def hexDigitChar (n : Nat) : Char := hexDigitCharAux (n % 16)

def hexValFn (c : Char) : Option Nat :=
  if c = '0' then some 0 else if c = '1' then some 1 else if c = '2' then some 2
  else if c = '3' then some 3 else if c = '4' then some 4 else if c = '5' then some 5
  else if c = '6' then some 6 else if c = '7' then some 7 else if c = '8' then some 8
  else if c = '9' then some 9 else if c = 'a' then some 10 else if c = 'b' then some 11
  else if c = 'c' then some 12 else if c = 'd' then some 13 else if c = 'e' then some 14
  else if c = 'f' then some 15 else none

theorem hexValFn_aux : ∀ m, m < 16 → hexValFn (hexDigitCharAux m) = some m := by decide

theorem hexValFn_hexDigitChar (n : Nat) : hexValFn (hexDigitChar n) = some (n % 16) :=
  hexValFn_aux (n % 16) (Nat.mod_lt n (by decide))

theorem hexValFn_hexDigitChar_isSome (n : Nat) : (hexValFn (hexDigitChar n)).isSome = true := by
  rw [hexValFn_hexDigitChar]; rfl

def encodeChar (c : Char) : List Char :=
  [hexDigitChar (c.toNat / 1048576), hexDigitChar (c.toNat / 65536),
   hexDigitChar (c.toNat / 4096), hexDigitChar (c.toNat / 256),
   hexDigitChar (c.toNat / 16), hexDigitChar c.toNat]

def hexEncode : List Char → List Char
  | [] => []
  | c :: cs => encodeChar c ++ hexEncode cs

def hexDecode : List Char → Option (List Char)
  | [] => some []
  | d1 :: d2 :: d3 :: d4 :: d5 :: d6 :: rest =>
    match hexValFn d1, hexValFn d2, hexValFn d3, hexValFn d4, hexValFn d5, hexValFn d6,
        hexDecode rest with
    | some v1, some v2, some v3, some v4, some v5, some v6, some cs =>
      some (Char.ofNat (v1 * 1048576 + v2 * 65536 + v3 * 4096 + v4 * 256 + v5 * 16 + v6) :: cs)
    | _, _, _, _, _, _, _ => none
  | _ => none

theorem charOfNat_toNat (c : Char) : Char.ofNat c.toNat = c := by
  have hv : c.toNat.isValidChar := c.valid
  unfold Char.ofNat
  rw [dif_pos hv]
  unfold Char.ofNatAux
  apply Char.ext
  apply UInt32.eq_of_toBitVec_eq
  apply BitVec.eq_of_toNat_eq
  simp [Char.toNat, UInt32.toNat]

theorem charToNat_lt (c : Char) : c.toNat < 1114112 := by
  rcases c.valid with h | ⟨_, h⟩
  · exact Nat.lt_trans h (by decide)
  · exact h

theorem hexDecode_hexEncode (l : List Char) : hexDecode (hexEncode l) = some l := by
  induction l with
  | nil => rfl
  | cons c cs ih =>
    have hlt : c.toNat < 1114112 := charToNat_lt c
    show hexDecode (encodeChar c ++ hexEncode cs) = some (c :: cs)
    simp only [encodeChar, List.cons_append, List.nil_append, List.append_eq, hexDecode,
      hexValFn_hexDigitChar, ih]
    rw [show c.toNat / 1048576 % 16 * 1048576 + c.toNat / 65536 % 16 * 65536 +
        c.toNat / 4096 % 16 * 4096 + c.toNat / 256 % 16 * 256 +
        c.toNat / 16 % 16 * 16 + c.toNat % 16 = c.toNat from by omega, charOfNat_toNat]

theorem mem_hexEncode (x : Char) (l : List Char) (h : x ∈ hexEncode l) :
    (hexValFn x).isSome = true := by
  induction l with
  | nil => simp [hexEncode] at h
  | cons c cs ih =>
    rw [show hexEncode (c :: cs) = encodeChar c ++ hexEncode cs from rfl,
      List.mem_append] at h
    rcases h with h | h
    · simp only [encodeChar, List.mem_cons, List.not_mem_nil, or_false] at h
      rcases h with rfl | rfl | rfl | rfl | rfl | rfl <;>
        exact hexValFn_hexDigitChar_isSome _
    · exact ih h

/-! Variable-length hex expansion of a natural number, little-endian, with an
explicit fuel argument so that the definition is structurally recursive (the fuel
`n` is always enough because a positive number shrinks under division by 16). -/

def hexNatFuel : Nat → Nat → List Char
  | 0, _ => []
  | f + 1, n => if n = 0 then [] else hexDigitChar n :: hexNatFuel f (n / 16)

def hexNatLE (n : Nat) : List Char := hexNatFuel n n

def hexNatDecode : List Char → Option Nat
  | [] => some 0
  | c :: cs =>
    match hexValFn c, hexNatDecode cs with
    | some v, some m => some (v + 16 * m)
    | _, _ => none

theorem hexNatFuel_zero (f : Nat) : hexNatFuel f 0 = [] := by
  cases f with
  | zero => rfl
  | succ f => simp [hexNatFuel]

theorem hexNatFuel_congr (n : Nat) :
    ∀ f g, n ≤ f → n ≤ g → hexNatFuel f n = hexNatFuel g n := by
  induction n using Nat.strong_induction_on with
  | _ n ih =>
    intro f g hf hg
    match n, f, g, hf, hg with
    | 0, f, g, _, _ => rw [hexNatFuel_zero, hexNatFuel_zero]
    | m + 1, f + 1, g + 1, hf, hg =>
      simp only [hexNatFuel, if_neg (Nat.succ_ne_zero m)]
      rw [ih ((m + 1) / 16) (by omega) f g (by omega) (by omega)]

theorem hexNatLE_succ (m : Nat) :
    hexNatLE (m + 1) = hexDigitChar (m + 1) :: hexNatLE ((m + 1) / 16) := by
  show hexNatFuel (m + 1) (m + 1) = _
  simp only [hexNatFuel, if_neg (Nat.succ_ne_zero m)]
  rw [hexNatFuel_congr ((m + 1) / 16) m ((m + 1) / 16) (by omega) (Nat.le_refl _)]
  rfl

theorem hexNatDecode_hexNatLE (n : Nat) : hexNatDecode (hexNatLE n) = some n := by
  induction n using Nat.strong_induction_on with
  | _ n ih =>
    match n with
    | 0 => rfl
    | m + 1 =>
      rw [hexNatLE_succ]
      have hdiv : (m + 1) / 16 < m + 1 := Nat.div_lt_self (Nat.succ_pos m) (by decide)
      simp only [hexNatDecode, hexValFn_hexDigitChar, ih ((m + 1) / 16) hdiv]
      congr 1
      omega

theorem mem_hexNatLE (x : Char) (n : Nat) (h : x ∈ hexNatLE n) :
    (hexValFn x).isSome = true := by
  induction n using Nat.strong_induction_on with
  | _ n ih =>
    match n with
    | 0 => simp [hexNatLE, hexNatFuel] at h
    | m + 1 =>
      rw [hexNatLE_succ] at h
      rcases List.mem_cons.mp h with rfl | h
      · exact hexValFn_hexDigitChar_isSome _
      · exact ih ((m + 1) / 16) (Nat.div_lt_self (Nat.succ_pos m) (by decide)) h

/-! ## Claims: the JSON payload of a token, as an association list -/

inductive ClaimVal where
  | str (s : List Char)
  | num (n : Nat)
  deriving DecidableEq

abbrev Claims := List (List Char × ClaimVal)

def claimLookup : Claims → List Char → Option ClaimVal
  | [], _ => none
  | (k, v) :: rest, key => if k = key then some v else claimLookup rest key

def serVal : ClaimVal → List Char
  | .str s => 's' :: hexEncode s
  | .num n => 'n' :: hexNatLE n

def parseVal : List Char → Option ClaimVal
  | 's' :: r => (hexDecode r).map ClaimVal.str
  | 'n' :: r => (hexNatDecode r).map ClaimVal.num
  | _ => none

def serEntry (e : List Char × ClaimVal) : List Char :=
  hexEncode e.1 ++ 'k' :: serVal e.2

def parseEntry (l : List Char) : Option (List Char × ClaimVal) :=
  match splitOnChar 'k' l with
  | [ke, ve] =>
    match hexDecode ke, parseVal ve with
    | some k, some v => some (k, v)
    | _, _ => none
  | _ => none

def serClaims : Claims → List Char
  | [] => []
  | e :: rest => ';' :: (serEntry e ++ serClaims rest)

def parseEntries : List (List Char) → Option Claims
  | [] => some []
  | p :: ps =>
    match parseEntry p, parseEntries ps with
    | some e, some es => some (e :: es)
    | _, _ => none

def parseClaims (l : List Char) : Option Claims :=
  match splitOnChar ';' l with
  | [] :: parts => parseEntries parts
  | _ => none

theorem mem_serVal (x : Char) (v : ClaimVal) (h : x ∈ serVal v) :
    x = 's' ∨ x = 'n' ∨ (hexValFn x).isSome = true := by
  cases v with
  | str s =>
    rcases List.mem_cons.mp h with rfl | h
    · exact Or.inl rfl
    · exact Or.inr (Or.inr (mem_hexEncode x s h))
  | num n =>
    rcases List.mem_cons.mp h with rfl | h
    · exact Or.inr (Or.inl rfl)
    · exact Or.inr (Or.inr (mem_hexNatLE x n h))

theorem mem_serEntry (x : Char) (e : List Char × ClaimVal) (h : x ∈ serEntry e) :
    x = 'k' ∨ x = 's' ∨ x = 'n' ∨ (hexValFn x).isSome = true := by
  rcases List.mem_append.mp h with h | h
  · exact Or.inr (Or.inr (Or.inr (mem_hexEncode x e.1 h)))
  · rcases List.mem_cons.mp h with rfl | h
    · exact Or.inl rfl
    · rcases mem_serVal x e.2 h with h | h | h
      · exact Or.inr (Or.inl h)
      · exact Or.inr (Or.inr (Or.inl h))
      · exact Or.inr (Or.inr (Or.inr h))

theorem mem_serClaims (x : Char) (cl : Claims) (h : x ∈ serClaims cl) :
    x = ';' ∨ x = 'k' ∨ x = 's' ∨ x = 'n' ∨ (hexValFn x).isSome = true := by
  induction cl with
  | nil => simp [serClaims] at h
  | cons e rest ih =>
    rcases List.mem_cons.mp h with rfl | h
    · exact Or.inl rfl
    · rcases List.mem_append.mp h with h | h
      · rcases mem_serEntry x e h with h | h | h
        · exact Or.inr (Or.inl h)
        · exact Or.inr (Or.inr (Or.inl h))
        · exact Or.inr (Or.inr (Or.inr h))
      · exact ih h

theorem hexValFn_k : hexValFn 'k' = none := by decide

theorem k_not_mem_hexEncode (l : List Char) : 'k' ∉ hexEncode l := by
  intro h
  have := mem_hexEncode 'k' l h
  rw [hexValFn_k] at this
  simp at this

theorem k_not_mem_serVal (v : ClaimVal) : 'k' ∉ serVal v := by
  intro h
  rcases mem_serVal 'k' v h with h | h | h
  · exact absurd h (by decide)
  · exact absurd h (by decide)
  · rw [hexValFn_k] at h; simp at h

theorem semi_not_mem_serEntry (e : List Char × ClaimVal) : ';' ∉ serEntry e := by
  intro h
  rcases mem_serEntry ';' e h with h | h | h | h
  · exact absurd h (by decide)
  · exact absurd h (by decide)
  · exact absurd h (by decide)
  · rw [show hexValFn ';' = none from by decide] at h; simp at h

theorem parseVal_serVal (v : ClaimVal) : parseVal (serVal v) = some v := by
  cases v with
  | str s => simp [serVal, parseVal, hexDecode_hexEncode]
  | num n => simp [serVal, parseVal, hexNatDecode_hexNatLE]

theorem parseEntry_serEntry (e : List Char × ClaimVal) : parseEntry (serEntry e) = some e := by
  obtain ⟨k, v⟩ := e
  have hsplit : splitOnChar 'k' (hexEncode k ++ 'k' :: serVal v) =
      [hexEncode k, serVal v] := by
    rw [splitOnChar_append 'k' (hexEncode k) (serVal v) (k_not_mem_hexEncode k),
      splitOnChar_sepFree 'k' (serVal v) (k_not_mem_serVal v)]
  show parseEntry (hexEncode k ++ 'k' :: serVal v) = some (k, v)
  simp [parseEntry, hsplit, hexDecode_hexEncode, parseVal_serVal]

theorem splitOnChar_cons_sep (sep : Char) (l : List Char) :
    splitOnChar sep (sep :: l) = [] :: splitOnChar sep l := by
  simp [splitOnChar]

theorem splitOnChar_serClaims (cl : Claims) :
    splitOnChar ';' (serClaims cl) = [] :: cl.map serEntry := by
  induction cl with
  | nil => rfl
  | cons e rest ih =>
    show splitOnChar ';' (';' :: (serEntry e ++ serClaims rest)) = _
    rw [splitOnChar_cons_sep]
    cases rest with
    | nil =>
      rw [show serClaims ([] : Claims) = [] from rfl, List.append_nil,
        splitOnChar_sepFree ';' (serEntry e) (semi_not_mem_serEntry e)]
      rfl
    | cons f rest2 =>
      rw [show serClaims (f :: rest2) = ';' :: (serEntry f ++ serClaims rest2) from rfl] at ih ⊢
      rw [splitOnChar_append ';' (serEntry e) _ (semi_not_mem_serEntry e)]
      rw [splitOnChar_cons_sep] at ih
      injection ih with h1 h2
      rw [h2]
      rfl

theorem parseEntries_map (cl : Claims) : parseEntries (cl.map serEntry) = some cl := by
  induction cl with
  | nil => rfl
  | cons e rest ih =>
    simp only [List.map_cons, parseEntries, parseEntry_serEntry, ih]

theorem parseClaims_serClaims (cl : Claims) : parseClaims (serClaims cl) = some cl := by
  unfold parseClaims
  rw [splitOnChar_serClaims]
  exact parseEntries_map cl

/-! ## JWT wire format: header.claims.signature, HS256 abstracted -/

def jwtHeader : List Char := hexEncode ['H', 'S', '2', '5', '6']

def mkSig (secret msg : List Char) : List Char :=
  hexEncode secret ++ 'x' :: hexEncode msg

def jwtEncode (secret : List Char) (cl : Claims) : List Char :=
  (jwtHeader ++ '.' :: serClaims cl) ++ '.' :: mkSig secret (jwtHeader ++ '.' :: serClaims cl)

def expKey : List Char := ['e', 'x', 'p']

inductive JwtError where
  | malformed
  | badSignature
  | badPayload
  | expired
  deriving DecidableEq

def jwtDecode (secret : List Char) (now : Nat) (tok : List Char) : Except JwtError Claims :=
  match splitOnChar '.' tok with
  | [hd, pl, sg] =>
    if sg = mkSig secret (hd ++ '.' :: pl) then
      match parseClaims pl with
      | some cl =>
        match claimLookup cl expKey with
        | some (.num e) => if e ≤ now then .error .expired else .ok cl
        | some (.str _) => .error .badPayload
        | none => .ok cl
      | none => .error .badPayload
    else .error .badSignature
  | _ => .error .malformed

theorem dot_not_mem_hexEncode (l : List Char) : '.' ∉ hexEncode l := by
  intro h
  have := mem_hexEncode '.' l h
  rw [show hexValFn '.' = none from by decide] at this
  simp at this

theorem dot_not_mem_serClaims (cl : Claims) : '.' ∉ serClaims cl := by
  intro h
  rcases mem_serClaims '.' cl h with h | h | h | h | h
  · exact absurd h (by decide)
  · exact absurd h (by decide)
  · exact absurd h (by decide)
  · exact absurd h (by decide)
  · rw [show hexValFn '.' = none from by decide] at h; simp at h

theorem dot_not_mem_mkSig (secret msg : List Char) : '.' ∉ mkSig secret msg := by
  intro h
  rcases List.mem_append.mp h with h | h
  · exact dot_not_mem_hexEncode secret h
  · rcases List.mem_cons.mp h with h | h
    · exact absurd h (by decide)
    · exact dot_not_mem_hexEncode msg h

theorem splitOnChar_jwtEncode (secret : List Char) (cl : Claims) :
    splitOnChar '.' (jwtEncode secret cl) =
      [jwtHeader, serClaims cl, mkSig secret (jwtHeader ++ '.' :: serClaims cl)] := by
  have hshape : jwtEncode secret cl =
      jwtHeader ++ '.' :: (serClaims cl ++ '.' :: mkSig secret (jwtHeader ++ '.' :: serClaims cl)) := by
    rw [jwtEncode, List.append_assoc, List.cons_append]
  rw [hshape,
    splitOnChar_append '.' jwtHeader _ (dot_not_mem_hexEncode _),
    splitOnChar_append '.' (serClaims cl) _ (dot_not_mem_serClaims cl),
    splitOnChar_sepFree '.' _ (dot_not_mem_mkSig _ _)]

theorem jwtDecode_jwtEncode (secret : List Char) (now : Nat) (cl : Claims) :
    jwtDecode secret now (jwtEncode secret cl) =
      match claimLookup cl expKey with
      | some (.num e) => if e ≤ now then .error .expired else .ok cl
      | some (.str _) => .error .badPayload
      | none => .ok cl := by
  unfold jwtDecode
  rw [splitOnChar_jwtEncode]
  simp only [parseClaims_serClaims, eq_self_iff_true, if_true]

/-! ## Python `value.split()[1]` on the Authorization header -/

def wsSplit (v : List Char) : List (List Char) :=
  (splitOnChar ' ' v).filter (fun p => !p.isEmpty)

def bearerToken (v : List Char) : Option (List Char) :=
  match wsSplit v with
  | _ :: t :: _ => some t
  | _ => none

def withBearer (tok : List Char) : List Char := "Bearer ".data ++ tok

theorem space_not_mem_jwtEncode (secret : List Char) (cl : Claims) :
    ' ' ∉ jwtEncode secret cl := by
  intro h
  rcases List.mem_append.mp h with h | h
  · rcases List.mem_append.mp h with h | h
    · have := mem_hexEncode ' ' _ h
      rw [show hexValFn ' ' = none from by decide] at this
      simp at this
    · rcases List.mem_cons.mp h with h | h
      · exact absurd h (by decide)
      · rcases mem_serClaims ' ' _ h with h | h | h | h | h
        · exact absurd h (by decide)
        · exact absurd h (by decide)
        · exact absurd h (by decide)
        · exact absurd h (by decide)
        · rw [show hexValFn ' ' = none from by decide] at h; simp at h
  · rcases List.mem_cons.mp h with h | h
    · exact absurd h (by decide)
    · rcases List.mem_append.mp h with h | h
      · have := mem_hexEncode ' ' _ h
        rw [show hexValFn ' ' = none from by decide] at this
        simp at this
      · rcases List.mem_cons.mp h with h | h
        · exact absurd h (by decide)
        · have := mem_hexEncode ' ' _ h
          rw [show hexValFn ' ' = none from by decide] at this
          simp at this

theorem jwtEncode_ne_nil (secret : List Char) (cl : Claims) : jwtEncode secret cl ≠ [] := by
  intro h
  rw [jwtEncode] at h
  rcases List.append_eq_nil.mp h with ⟨_, h2⟩
  exact List.cons_ne_nil _ _ h2

theorem bearerToken_withBearer (tok : List Char) (hs : ' ' ∉ tok) (hn : tok ≠ []) :
    bearerToken (withBearer tok) = some tok := by
  have hdata : withBearer tok = ['B', 'e', 'a', 'r', 'e', 'r'] ++ ' ' :: tok := rfl
  rw [bearerToken, wsSplit, hdata,
    splitOnChar_append ' ' ['B', 'e', 'a', 'r', 'e', 'r'] tok (by decide),
    splitOnChar_sepFree ' ' tok hs]
  cases tok with
  | nil => exact absurd rfl hn
  | cons c t => rfl

/-! ## Shared store and result types -/

def dbLookup {α : Type} : List (List Char × α) → List Char → Option α
  | [], _ => none
  | (k, v) :: rest, key => if k = key then some v else dbLookup rest key

theorem dbLookup_append_self {α : Type} (db : List (List Char × α)) (u : List Char) (x : α)
    (h : dbLookup db u = none) : dbLookup (db ++ [(u, x)]) u = some x := by
  induction db with
  | nil => simp [dbLookup]
  | cons p rest ih =>
    obtain ⟨k, v⟩ := p
    by_cases hk : k = u
    · rw [dbLookup, if_pos hk] at h; exact absurd h (by simp)
    · rw [dbLookup, if_neg hk] at h
      rw [List.cons_append, dbLookup, if_neg hk]
      exact ih h

inductive RegResult where
  | ok
  | duplicateUser
  | serverError
  deriving DecidableEq

inductive LoginResult where
  | token (t : List Char)
  | invalidCredentials
  | serverError
  deriving DecidableEq

/-! ## Variant `ai_fullstack_boilerplate (3).jsx` (Flask + bcrypt + expiring JWT) -/

namespace Boiler3

/-- Claim key `username`, from `jwt.encode` and `data['username']` in app.py. -/
def unameKey : List Char := ['u', 's', 'e', 'r', 'n', 'a', 'm', 'e']

/-- Model of a bcrypt hash string: the salt is recoverable from the stored value
(as in real bcrypt output) and the digest is an abstract one-way function of salt
and password, modelled by the injective hex expansion of their concatenation. -/
structure BHash where
  salt : List Char
  digest : List Char
  deriving DecidableEq

def bcryptDigest (salt p : List Char) : List Char := hexEncode (salt ++ p)

/-- Model of `bcrypt.hashpw(password, bcrypt.gensalt())`; the fresh random salt is
an explicit argument. -/
def hashpw (p salt : List Char) : BHash := ⟨salt, bcryptDigest salt p⟩

/-- Model of `bcrypt.checkpw(attempt, stored)`: recompute with the stored salt and
compare. -/
def checkpw (p : List Char) (h : BHash) : Bool := decide (h.digest = bcryptDigest h.salt p)

/-- The `users` table: username (UNIQUE) to bcrypt hash. -/
abbrev Store := List (List Char × BHash)

/-- The `/api/register` handler.  The hash is computed before the `try:` block;
inside the block, a duplicate INSERT raises `IntegrityError` and a storage outage
raises `OperationalError`, and the bare `except:` maps both to the 409
`'User already exists'` response. -/
def register (avail : Bool) (salt : List Char) (db : Store) (u p : List Char) :
    Store × RegResult :=
  let h := hashpw p salt
  if avail = false then (db, .duplicateUser)
  else
    match dbLookup db u with
    | some _ => (db, .duplicateUser)
    | none => (db ++ [(u, h)], .ok)

/-- The token minted on line 99 of app.py:
`jwt.encode(dict with username = user[1] and exp = utcnow() + 30 minutes, SECRET_KEY)`. -/
def issueToken (secret u : List Char) (now : Nat) : List Char :=
  jwtEncode secret [(unameKey, .str u), (expKey, .num (now + 1800))]

/-- The `/api/login` handler: fetch the row by username, check bcrypt, mint the
token.  There is no `try:` around the SQL, so a storage outage propagates as an
unhandled server error. -/
def login (avail : Bool) (secret : List Char) (db : Store) (now : Nat) (u p : List Char) :
    LoginResult :=
  if avail = false then .serverError
  else
    match dbLookup db u with
    | some h => if checkpw p h then .token (issueToken secret u now) else .invalidCredentials
    | none => .invalidCredentials

inductive GuardResult where
  | ok (user : ClaimVal)
  | missing
  | invalid
  deriving DecidableEq

/-- The `token_required` decorator of app.py: missing (or falsy empty) header is
`'Token is missing'`; the `try:` block covers `token.split()[1]`, `jwt.decode` and
`data['username']`, and its bare `except:` turns every failure into
`'Token is invalid'`. -/
def token_required (secret : List Char) (now : Nat) (auth : Option (List Char)) :
    GuardResult :=
  match auth with
  | none => .missing
  | some v =>
    if v.isEmpty then .missing
    else
      match bearerToken v with
      | none => .invalid
      | some tok =>
        match jwtDecode secret now tok with
        | .ok cl =>
          match claimLookup cl unameKey with
          | some u => .ok u
          | none => .invalid
        | .error _ => .invalid

/-- HTTP status attached to each guard outcome in app.py: 403 in both failure
branches; `none` means the wrapped handler runs. -/
def statusOf : GuardResult → Option Nat
  | .ok _ => none
  | .missing => some 403
  | .invalid => some 403

end Boiler3

/-! ## Variant `part_001` (Flask, plaintext passwords, non-expiring JWT) -/

namespace Part001

/-- Claim key `user`, the only key in `jwt.encode` in auth.py line 117. -/
def userKey : List Char := ['u', 's', 'e', 'r']

/-- The `users` table of app.py: username (UNIQUE) to the raw password TEXT. -/
abbrev Store := List (List Char × List Char)

/-- Model of `create_token` (auth.py): the signed claims are the dict with the
single key `user`; no timestamp, expiry or nonce enters the encoding. -/
def create_token (secret u : List Char) : List Char :=
  jwtEncode secret [(userKey, .str u)]

/-- The issuance event as performed by the `/login` route at server time `now`:
`create_token(username)` takes no clock, so `now` is ignored. -/
def issueAt (secret u : List Char) (_now : Nat) : List Char := create_token secret u

/-- Model of `register_user` (auth.py): `try:` catches only
`sqlite3.IntegrityError` (the duplicate), so a storage outage escapes as an
unhandled server error. -/
def register_user (avail : Bool) (db : Store) (u p : List Char) : Store × RegResult :=
  if avail = false then (db, .serverError)
  else
    match dbLookup db u with
    | some _ => (db, .duplicateUser)
    | none => (db ++ [(u, p)], .ok)

/-- The SQL row test of the `/login` route:
`SELECT * FROM users WHERE username=? AND password=?`. -/
def hasRow (db : Store) (u p : List Char) : Bool :=
  match db with
  | [] => false
  | (a, b) :: rest => if (a, b) = (u, p) then true else hasRow rest u p

/-- The `/login` route of app.py: one SELECT matching username and plaintext
password together; a hit mints the token, a miss is `'Invalid credentials'` 403.
No `try:` around the SQL, so an outage is an unhandled server error. -/
def login (avail : Bool) (secret : List Char) (db : Store) (u p : List Char) : LoginResult :=
  if avail = false then .serverError
  else if hasRow db u p then .token (create_token secret u)
  else .invalidCredentials

inductive GuardResult where
  | ok (user : ClaimVal)
  | missing
  | invalid
  | serverError
  deriving DecidableEq

/-- The `token_required` decorator of auth.py.  The extraction
`request.headers['Authorization'].split()[1]` runs before the `try:` block, so a
header value without a second whitespace-separated part raises an unhandled
`IndexError` (`serverError`).  Only `jwt.decode` and `data['user']` are inside
the `try:`, whose bare `except:` answers `'Invalid token'` 403. -/
def token_required (secret : List Char) (now : Nat) (auth : Option (List Char)) :
    GuardResult :=
  match auth with
  | none => .missing
  | some v =>
    match bearerToken v with
    | none => .serverError
    | some tok =>
      if tok.isEmpty then .missing
      else
        match jwtDecode secret now tok with
        | .ok cl =>
          match claimLookup cl userKey with
          | some u => .ok u
          | none => .invalid
        | .error _ => .invalid

/-- HTTP status attached to each guard outcome in auth.py: 401 for the missing
token, 403 for the invalid token, 500 for the unhandled `IndexError`. -/
def statusOf : GuardResult → Option Nat
  | .ok _ => none
  | .missing => some 401
  | .invalid => some 403
  | .serverError => some 500

end Part001

/-! ## Client session manager (`part_000`, `src/App.js`) -/

structure ClientState where
  token : Option (List Char)
  username : Option (List Char)
  deriving DecidableEq

/-- `logout`: `setToken(null); setUsername(null); localStorage.removeItem(...)`. -/
def logout (_s : ClientState) : ClientState := ⟨none, none⟩

/-- `handleLogin(token, username)`: store both and mark the session authenticated. -/
def handleLogin (_s : ClientState) (tok u : List Char) : ClientState := ⟨some tok, some u⟩

/-- The state update performed by `handlePredict` on receiving a response with the
given HTTP status: only `response.status === 401` triggers `logout()`; every other
status leaves the stored session untouched. -/
def handlePredictUpdate (s : ClientState) (status : Nat) : ClientState :=
  if status = 401 then logout s else s

/-! ## Helper lemmas for the claim theorems -/

theorem hexEncode_length (l : List Char) : (hexEncode l).length = 6 * l.length := by
  induction l with
  | nil => rfl
  | cons c cs ih =>
    rw [show hexEncode (c :: cs) = encodeChar c ++ hexEncode cs from rfl,
      List.length_append, ih, show (encodeChar c).length = 6 from rfl, List.length_cons]
    omega

theorem mkSig_length (s m : List Char) :
    (mkSig s m).length = 6 * s.length + 1 + 6 * m.length := by
  simp only [mkSig, List.length_append, List.length_cons, hexEncode_length]
  omega

theorem mkSig_ne_of_length (s1 s2 m : List Char) (h : s1.length ≠ s2.length) :
    mkSig s1 m ≠ mkSig s2 m := by
  intro heq
  have hlen := congrArg List.length heq
  rw [mkSig_length, mkSig_length] at hlen
  omega

theorem jwtDecode_jwtEncode_otherSecret (s1 s2 : List Char) (now : Nat) (cl : Claims)
    (h : mkSig s2 (jwtHeader ++ '.' :: serClaims cl) ≠
      mkSig s1 (jwtHeader ++ '.' :: serClaims cl)) :
    jwtDecode s1 now (jwtEncode s2 cl) = .error .badSignature := by
  unfold jwtDecode
  rw [splitOnChar_jwtEncode]
  simp only [if_neg h]

theorem Boiler3.token_required_withBearer (secret sec2 : List Char) (now : Nat) (cl : Claims) :
    Boiler3.token_required secret now (some (withBearer (jwtEncode sec2 cl))) =
      match jwtDecode secret now (jwtEncode sec2 cl) with
      | .ok c =>
        match claimLookup c Boiler3.unameKey with
        | some u => .ok u
        | none => .invalid
      | .error _ => .invalid := by
  have hb := bearerToken_withBearer (jwtEncode sec2 cl)
    (space_not_mem_jwtEncode sec2 cl) (jwtEncode_ne_nil sec2 cl)
  have hie : (withBearer (jwtEncode sec2 cl)).isEmpty = false := rfl
  unfold Boiler3.token_required
  simp only [hie, Bool.false_eq_true, if_false, hb]

theorem Part001.hasRow_eq_false (db : Part001.Store) (u p : List Char)
    (h : ∀ q, (u, q) ∈ db → q ≠ p) : Part001.hasRow db u p = false := by
  induction db with
  | nil => rfl
  | cons r rest ih =>
    obtain ⟨a, b⟩ := r
    show Part001.hasRow ((a, b) :: rest) u p = false
    unfold Part001.hasRow
    by_cases hab : (a, b) = (u, p)
    · exfalso
      rw [Prod.mk.injEq] at hab
      obtain ⟨rfl, rfl⟩ := hab
      exact h b (List.mem_cons_self _ _) rfl
    · rw [if_neg hab]
      exact ih fun q hq => h q (List.mem_cons_of_mem _ hq)

/-! ## The claims -/

/-- C1 (amended): for every presented credential the Boiler3 Guard fails with
`missing` when the credential is absent, and with the single unified `invalid`
rejection for every other failure: a value that has no second
whitespace-separated part, and a value whose extracted token fails `jwt.decode`
for any reason (malformed shape, wrong signature, or expiry) — the distinct
decode failure kinds are all collapsed to the same internal result by the bare
`except:`. -/
theorem c1_theorem (secret : List Char) (now : Nat) (v tok : List Char) (e : JwtError) :
    Boiler3.token_required secret now none = .missing ∧
    (v ≠ [] → bearerToken v = none →
      Boiler3.token_required secret now (some v) = .invalid) ∧
    (v ≠ [] → bearerToken v = some tok → jwtDecode secret now tok = .error e →
      Boiler3.token_required secret now (some v) = .invalid) := by
  refine ⟨rfl, ?_, ?_⟩
  · intro hne hb
    have hie : v.isEmpty = false := by
      cases v with
      | nil => exact absurd rfl hne
      | cons c t => rfl
    unfold Boiler3.token_required
    simp only [hie, Bool.false_eq_true, if_false, hb]
  · intro hne hb hd
    have hie : v.isEmpty = false := by
      cases v with
      | nil => exact absurd rfl hne
      | cons c t => rfl
    unfold Boiler3.token_required
    simp only [hie, Bool.false_eq_true, if_false, hb, hd]

/-- C1 witness: concrete instance of the amended claim, a syntactically present
but undecodable credential is rejected with the unified invalid result. -/
theorem c1_witness :
    Boiler3.token_required "your_jwt_secret_key".data 10 (some "Bearer garbage".data) =
      .invalid :=
  (c1_theorem ("your_jwt_secret_key".data) 10 ("Bearer garbage".data) ("garbage".data)
    .malformed).2.2 (by decide) (by decide) rfl

/-- C1 counterexample: the claim asserts four distinct internal failure modes,
but a malformed credential, an expired well-signed token, and a token signed
with a different secret all produce the identical internal result `invalid` in
the Boiler3 guard, so `MalformedToken`, `ExpiredToken` and `InvalidSignature`
are not distinguishable. -/
theorem c1_counterexample :
    Boiler3.token_required "mysecret".data 1805 (some "Bearer garbage".data) = .invalid ∧
    Boiler3.token_required "mysecret".data 1805
      (some (withBearer (Boiler3.issueToken "mysecret".data "a".data 5))) = .invalid ∧
    Boiler3.token_required "mysecret".data 1805
      (some (withBearer (jwtEncode "other".data
        [(Boiler3.unameKey, .str "a".data), (expKey, .num 99999)]))) = .invalid := by
  refine ⟨?_, ?_, ?_⟩
  · exact (c1_theorem ("mysecret".data) 1805 ("Bearer garbage".data) ("garbage".data)
      .malformed).2.2 (by decide) (by decide) rfl
  · rw [Boiler3.issueToken, Boiler3.token_required_withBearer]
    rw [jwtDecode_jwtEncode]
    rw [show claimLookup
        [(Boiler3.unameKey, ClaimVal.str "a".data), (expKey, ClaimVal.num (5 + 1800))]
        expKey = some (.num (5 + 1800)) from by
      rw [claimLookup, if_neg (by decide), claimLookup, if_pos rfl]]
    simp
  · rw [Boiler3.token_required_withBearer]
    rw [jwtDecode_jwtEncode_otherSecret "mysecret".data "other".data 1805 _
      (mkSig_ne_of_length _ _ _ (by decide))]

theorem jwtDecode_jwtEncode_exp (secret : List Char) (now : Nat) (cl : Claims) (e : Nat)
    (h : claimLookup cl expKey = some (.num e)) :
    jwtDecode secret now (jwtEncode secret cl) =
      if e ≤ now then .error .expired else .ok cl := by
  rw [jwtDecode_jwtEncode, h]

theorem jwtDecode_jwtEncode_noexp (secret : List Char) (now : Nat) (cl : Claims)
    (h : claimLookup cl expKey = none) :
    jwtDecode secret now (jwtEncode secret cl) = .ok cl := by
  rw [jwtDecode_jwtEncode, h]

/-- C2 (amended): a token minted by the Boiler3 login at time `t0` (TTL 1800
seconds) is accepted by the Guard at every time `t0 + t` with `t < 1800`,
returning the subject, and rejected for every `t >= 1800` — the rejection being
the Guard's unified invalid-token error; equivalently the token is valid iff its
signature verifies and `now < expires_at` (strict). -/
theorem c2_theorem (secret u : List Char) (t0 t : Nat) :
    (t < 1800 →
      Boiler3.token_required secret (t0 + t)
        (some (withBearer (Boiler3.issueToken secret u t0))) = .ok (.str u)) ∧
    (1800 ≤ t →
      Boiler3.token_required secret (t0 + t)
        (some (withBearer (Boiler3.issueToken secret u t0))) = .invalid) := by
  have hexp : claimLookup
      [(Boiler3.unameKey, ClaimVal.str u), (expKey, ClaimVal.num (t0 + 1800))] expKey =
      some (.num (t0 + 1800)) := by
    rw [claimLookup, if_neg (by decide), claimLookup, if_pos rfl]
  have huser : claimLookup
      [(Boiler3.unameKey, ClaimVal.str u), (expKey, ClaimVal.num (t0 + 1800))]
      Boiler3.unameKey = some (.str u) := by
    rw [claimLookup, if_pos rfl]
  constructor
  · intro ht
    rw [Boiler3.issueToken, Boiler3.token_required_withBearer,
      jwtDecode_jwtEncode_exp secret (t0 + t) _ (t0 + 1800) hexp]
    rw [if_neg (show ¬(t0 + 1800 ≤ t0 + t) by omega)]
    simp [huser]
  · intro ht
    rw [Boiler3.issueToken, Boiler3.token_required_withBearer,
      jwtDecode_jwtEncode_exp secret (t0 + t) _ (t0 + 1800) hexp]
    rw [if_pos (show t0 + 1800 ≤ t0 + t by omega)]

/-- C2 witness: a concrete token issued at time 0 is accepted at `t = 5` and
rejected at `t = 1800`. -/
theorem c2_witness :
    Boiler3.token_required "mysecret".data (0 + 5)
      (some (withBearer (Boiler3.issueToken "mysecret".data "a".data 0))) =
        .ok (.str "a".data) ∧
    Boiler3.token_required "mysecret".data (0 + 1800)
      (some (withBearer (Boiler3.issueToken "mysecret".data "a".data 0))) = .invalid :=
  ⟨(c2_theorem ("mysecret".data) ("a".data) 0 5).1 (by omega),
   (c2_theorem ("mysecret".data) ("a".data) 0 1800).2 (by omega)⟩

/-- C2 counterexample: the claim's biconditional `valid iff signature verifies
and now <= expires_at` fails at the boundary `now = expires_at`: a well-signed
token with `exp = 1805` satisfies `now <= expires_at` at `now = 1805`, yet
`jwt.decode` reports it expired and the Guard rejects the call. -/
theorem c2_counterexample :
    jwtDecode "mysecret".data 1805 (Boiler3.issueToken "mysecret".data "a".data 5) =
      .error .expired ∧
    Boiler3.token_required "mysecret".data 1805
      (some (withBearer (Boiler3.issueToken "mysecret".data "a".data 5))) = .invalid := by
  have hd : jwtDecode "mysecret".data 1805 (Boiler3.issueToken "mysecret".data "a".data 5) =
      .error .expired := by
    rw [Boiler3.issueToken, jwtDecode_jwtEncode]
    rw [show claimLookup
        [(Boiler3.unameKey, ClaimVal.str "a".data), (expKey, ClaimVal.num (5 + 1800))]
        expKey = some (.num (5 + 1800)) from by
      rw [claimLookup, if_neg (by decide), claimLookup, if_pos rfl]]
    simp
  refine ⟨hd, ?_⟩
  rw [Boiler3.issueToken, Boiler3.token_required_withBearer]
  rw [Boiler3.issueToken] at hd
  rw [hd]

/-- C3: registering a fresh username in the Boiler3 store succeeds, persists the
bcrypt hash computed from the submitted password and the fresh salt, and any
second registration of the same username, with any password and any salt, fails
with the duplicate-user error while leaving the store (hence the stored hash)
unchanged. -/
theorem c3_theorem (db : Boiler3.Store) (u p salt : List Char)
    (h : dbLookup db u = none) :
    (Boiler3.register true salt db u p).2 = .ok ∧
    dbLookup (Boiler3.register true salt db u p).1 u = some (Boiler3.hashpw p salt) ∧
    ∀ p2 salt2, Boiler3.register true salt2 (Boiler3.register true salt db u p).1 u p2 =
      ((Boiler3.register true salt db u p).1, .duplicateUser) := by
  have hreg : Boiler3.register true salt db u p = (db ++ [(u, Boiler3.hashpw p salt)], .ok) := by
    unfold Boiler3.register
    simp [h]
  have hlk : dbLookup (db ++ [(u, Boiler3.hashpw p salt)]) u = some (Boiler3.hashpw p salt) :=
    dbLookup_append_self db u _ h
  refine ⟨by rw [hreg], by rw [hreg]; exact hlk, ?_⟩
  intro p2 salt2
  rw [hreg]
  unfold Boiler3.register
  simp [hlk]

/-- C3 witness: concrete first and second registration of the same username. -/
theorem c3_witness :
    (Boiler3.register true "s1".data [] "alice".data "pw1".data).2 = .ok ∧
    dbLookup (Boiler3.register true "s1".data [] "alice".data "pw1".data).1 "alice".data =
      some (Boiler3.hashpw "pw1".data "s1".data) ∧
    Boiler3.register true "s2".data
      (Boiler3.register true "s1".data [] "alice".data "pw1".data).1 "alice".data "pw2".data =
      ((Boiler3.register true "s1".data [] "alice".data "pw1".data).1, .duplicateUser) := by
  obtain ⟨h1, h2, h3⟩ := c3_theorem [] "alice".data "pw1".data "s1".data rfl
  exact ⟨h1, h2, h3 "pw2".data "s2".data⟩

/-- C4: in both backend variants, a login with an unknown username and a login
with a known username but non-matching password produce the same
invalid-credentials result, so the response does not reveal whether the
username exists. -/
theorem c4_theorem (secret : List Char) (db3 : Boiler3.Store) (db1 : Part001.Store)
    (now : Nat) (u p : List Char)
    (h3 : ∀ bh, dbLookup db3 u = some bh → Boiler3.checkpw p bh = false)
    (h1 : ∀ q, (u, q) ∈ db1 → q ≠ p) :
    Boiler3.login true secret db3 now u p = .invalidCredentials ∧
    Part001.login true secret db1 u p = .invalidCredentials := by
  constructor
  · unfold Boiler3.login
    rw [if_neg (by decide)]
    cases hdb : dbLookup db3 u with
    | none => rfl
    | some bh => simp [h3 bh hdb]
  · unfold Part001.login
    rw [if_neg (by decide), Part001.hasRow_eq_false db1 u p h1]
    rfl

/-- C4 witness: with an empty store every login fails with the unified
invalid-credentials result in both variants. -/
theorem c4_witness :
    Boiler3.login true "k".data [] 0 "alice".data "pw".data = .invalidCredentials ∧
    Part001.login true "k".data [] "alice".data "pw".data = .invalidCredentials :=
  c4_theorem "k".data [] [] 0 "alice".data "pw".data
    (fun _ hb => nomatch hb) (fun _ hq => nomatch hq)

/-- C5: evaluation of the part_001 registration and login at a concrete input.
The value persisted for the user is the plaintext password itself, and the login
succeeds by direct plaintext equality in the SQL WHERE clause — no salted hash
is ever computed, contradicting the claim that every registration stores
`hash(plaintext_password, fresh_salt)` and that verification goes through the
hash function. -/
theorem c5_theorem :
    Part001.register_user true [] "alice".data "secret123".data =
      ([("alice".data, "secret123".data)], .ok) ∧
    dbLookup [("alice".data, "secret123".data)] "alice".data = some "secret123".data ∧
    Part001.login true "mysecret".data [("alice".data, "secret123".data)] "alice".data
      "secret123".data = .token (Part001.create_token "mysecret".data "alice".data) := by
  refine ⟨rfl, rfl, ?_⟩
  rfl

/-- C6 (amended): every token of either issuer serializes as a three-part
dot-separated string.  A Boiler3 token's claims contain the subject (under the
key `username`) and `exp`, with `exp = issued_at + 1800 > issued_at`; a part_001
token's claims contain only the subject (under the key `user`) and no expiry. -/
theorem c6_theorem (secret u : List Char) (t0 : Nat) :
    splitOnChar '.' (Boiler3.issueToken secret u t0) =
      [jwtHeader, serClaims [(Boiler3.unameKey, .str u), (expKey, .num (t0 + 1800))],
        mkSig secret (jwtHeader ++ '.' ::
          serClaims [(Boiler3.unameKey, .str u), (expKey, .num (t0 + 1800))])] ∧
    claimLookup [(Boiler3.unameKey, ClaimVal.str u), (expKey, ClaimVal.num (t0 + 1800))]
      Boiler3.unameKey = some (.str u) ∧
    claimLookup [(Boiler3.unameKey, ClaimVal.str u), (expKey, ClaimVal.num (t0 + 1800))]
      expKey = some (.num (t0 + 1800)) ∧
    t0 < t0 + 1800 ∧
    splitOnChar '.' (Part001.create_token secret u) =
      [jwtHeader, serClaims [(Part001.userKey, .str u)],
        mkSig secret (jwtHeader ++ '.' :: serClaims [(Part001.userKey, .str u)])] := by
  refine ⟨splitOnChar_jwtEncode secret _, ?_, ?_, by omega, splitOnChar_jwtEncode secret _⟩
  · rw [claimLookup, if_pos rfl]
  · rw [claimLookup, if_neg (by decide), claimLookup, if_pos rfl]

/-- C6 counterexample: a token produced by the part_001 Token Issuer decodes (at
any time, here 999999) to claims that contain no `exp` at all, contradicting the
claim that every issued token's claims contain at minimum `sub` and `exp`. -/
theorem c6_counterexample :
    jwtDecode "mysecret".data 999999 (Part001.create_token "mysecret".data "alice".data) =
      .ok [(Part001.userKey, ClaimVal.str "alice".data)] ∧
    claimLookup [(Part001.userKey, ClaimVal.str "alice".data)] expKey = none := by
  constructor
  · rw [Part001.create_token, jwtDecode_jwtEncode]
    rw [show claimLookup [(Part001.userKey, ClaimVal.str "alice".data)] expKey = none from by
      rw [claimLookup, if_neg (by decide)]; rfl]
  · rw [claimLookup, if_neg (by decide)]; rfl

/-- C7: evaluation of the client session update against the Boiler3 guard's
status codes.  Every guard rejection carries HTTP 403, but the client's
`handlePredict` only clears the stored session on status 401, so after a server
rejection of a protected call the client keeps its token and stays
authenticated, contradicting the claim that it always transitions to the
unauthenticated state.  (The 401 branch, which never fires against this
backend, does clear the session.) -/
theorem c7_theorem :
    Boiler3.statusOf .invalid = some 403 ∧
    Boiler3.statusOf .missing = some 403 ∧
    handlePredictUpdate ⟨some "t1".data, some "alice".data⟩ 403 =
      (⟨some "t1".data, some "alice".data⟩ : ClientState) ∧
    handlePredictUpdate ⟨some "t1".data, some "alice".data⟩ 401 =
      (⟨none, none⟩ : ClientState) := by
  refine ⟨rfl, rfl, rfl, rfl⟩

/-- C8: evaluation of both registration handlers during a storage outage.  The
Boiler3 register's bare `except:` reports the outage as the duplicate-user
conflict (409 `'User already exists'`) — a credential error, not a distinct
store-unavailable condition; the part_001 register lets the outage escape as an
unhandled server error. -/
theorem c8_theorem :
    Boiler3.register false "s1".data [] "alice".data "pw".data = ([], .duplicateUser) ∧
    Part001.register_user false [] "alice".data "pw".data = ([], .serverError) := by
  exact ⟨rfl, rfl⟩

/-- C9: a request whose Authorization header is present but has no second
whitespace-separated part (the value `Bearer` alone) makes the part_001 guard
evaluate `split()[1]` outside the exception handler: the result is the unhandled
server error (HTTP 500), not the missing-token or invalid-token rejection. -/
theorem c9_theorem (secret : List Char) (now : Nat) :
    Part001.token_required secret now (some "Bearer".data) = .serverError ∧
    Part001.statusOf .serverError = some 500 := by
  exact ⟨rfl, rfl⟩

/-- C10: the part_001 `create_token` is a pure function of the username alone:
the issuance event at any two server times yields the identical token string,
and decoding the token (at any time) returns exactly the one-entry claims
dict with key `user` — no timestamp, expiry or nonce. -/
theorem c10_theorem (secret u : List Char) (t1 t2 now : Nat) :
    Part001.issueAt secret u t1 = Part001.issueAt secret u t2 ∧
    jwtDecode secret now (Part001.create_token secret u) =
      .ok [(Part001.userKey, ClaimVal.str u)] := by
  refine ⟨rfl, ?_⟩
  rw [Part001.create_token, jwtDecode_jwtEncode]
  rw [show claimLookup [(Part001.userKey, ClaimVal.str u)] expKey = none from by
    rw [claimLookup, if_neg (by decide)]; rfl]
